import Mathlib

/-!
Shallow embedding of the PDF editor backend (app.py and
google_fonts_downloader.py): the data model, the color and font-family
parsing, the edit loop of the edit_pdf handler, the caching font
downloader, and the font extraction handler, together with theorems
checking the specification's claims about them.

Numeric values carried by edit instructions are modelled as rationals,
strings as Lean strings (character lists), JSON objects as records of
optional fields, and the PDF library as an explicit document value plus
oracles for the fallible external calls (font download, font byte
extraction).
-/

/-- Association-list lookup by string key, first binding wins (Python
dict lookup; dicts here never hold duplicate keys). -/
def lookupA {α : Type} : List (String × α) → String → Option α
  | [], _ => none
  | (k, v) :: rest, key => if k = key then some v else lookupA rest key

/-- The ASCII whitespace characters recognised by Python's str.strip and
by the regex class backslash-s (space, tab, newline, return, vertical
tab, form feed). -/
def isPySpace (c : Char) : Bool :=
  c = ' ' || c = '\t' || c = '\n' || c = '\r' || c = '\x0b' || c = '\x0c'

/-- Numeric value of a run of decimal digit characters (Python int() on
the text captured by a regex digit group). -/
def charsToNat (l : List Char) : Nat :=
  l.foldl (fun a c => a * 10 + (c.toNat - 48)) 0

/-- Match the regex rgb backslash-paren digits comma spaces digits comma
spaces digits close-paren at the start of the character list (re.match
of app.py line 125: anchored at the start only, trailing characters
ignored), returning the three captured values and the unconsumed
remainder of the input. -/
def matchRGBAux (s : List Char) : Option ((Nat × Nat × Nat) × List Char) :=
  match s with
  | 'r' :: 'g' :: 'b' :: '(' :: r0 =>
    let d1 := r0.takeWhile Char.isDigit
    if d1 = [] then none else
    match r0.dropWhile Char.isDigit with
    | ',' :: r1 =>
      let r1s := r1.dropWhile isPySpace
      let d2 := r1s.takeWhile Char.isDigit
      if d2 = [] then none else
      match r1s.dropWhile Char.isDigit with
      | ',' :: r2 =>
        let r2s := r2.dropWhile isPySpace
        let d3 := r2s.takeWhile Char.isDigit
        if d3 = [] then none else
        match r2s.dropWhile Char.isDigit with
        | ')' :: r3 => some ((charsToNat d1, charsToNat d2, charsToNat d3), r3)
        | _ => none
      | _ => none
    | _ => none
  | _ => none

/-- Embeds the color-parsing block of edit_pdf (app.py lines 124-132):
re.match of the rgb pattern, each captured channel divided by 255.0 on a
match, silent fallback to black otherwise. -/
def parse_color (s : String) : ℚ × ℚ × ℚ :=
  match matchRGBAux s.data with
  | some ((r, g, b), _) => ((r : ℚ) / 255, (g : ℚ) / 255, (b : ℚ) / 255)
  | none => (0, 0, 0)

/-- The prefix of l before the first occurrence of sep: embeds Python
l.split(sep)[0]. -/
def beforeFirst (sep : Char) (l : List Char) : List Char :=
  l.takeWhile (fun c => c != sep)

/-- Python str.strip(): drop leading and trailing whitespace. -/
def pyStrip (l : List Char) : List Char :=
  ((l.dropWhile isPySpace).reverse.dropWhile isPySpace).reverse

/-- Embeds app.py line 142: font_name.split(',')[0].split('-')[0].strip(). -/
def parseFamily (s : String) : String :=
  String.mk (pyStrip (beforeFirst '-' (beforeFirst ',' s.data)))

/-- One drawing operation recorded on a page: page.draw_rect, or
page.insert_text with either a downloaded font file or a base-14 font
name. -/
inductive PageOp : Type
  | drawRect (rect : ℚ × ℚ × ℚ × ℚ) (color : ℚ × ℚ × ℚ) (fill : ℚ × ℚ × ℚ)
  | insertTextFile (pos : ℚ × ℚ) (text : String) (fontsize : ℚ)
      (fontfile : String) (color : ℚ × ℚ × ℚ) (renderMode : Nat)
  | insertTextName (pos : ℚ × ℚ) (text : String) (fontsize : ℚ)
      (fontname : String) (color : ℚ × ℚ × ℚ) (renderMode : Nat)
  deriving DecidableEq

/-- The position argument of an insert_text operation. -/
def PageOp.insertPos : PageOp → Option (ℚ × ℚ)
  | .drawRect _ _ _ => none
  | .insertTextFile pos _ _ _ _ _ => some pos
  | .insertTextName pos _ _ _ _ _ => some pos

/-- One entry of page.get_fonts(full=True), keeping the tuple positions
app.py reads: position 0 (xref), position 1 (the tag stored as
font_type) and position 3 (the name stored as font_name). -/
structure FontRef where
  xref : Nat
  ftype : String
  name : String
  deriving DecidableEq

/-- A PDF page: the fonts its resource dictionary references and the
drawing operations applied to it so far. -/
structure PDFPage where
  fonts : List FontRef := []
  ops : List PageOp := []
  deriving DecidableEq

/-- An in-memory PDF document (fitz.Document): its ordered pages. -/
structure PDFDoc where
  pages : List PDFPage
  deriving DecidableEq

/-- Embeds fitz document page access doc[i]: an integer below the page
count is accepted, a negative integer has the page count added to it
until it is non-negative (PyMuPDF load_page, so doc[-1] is the last
page), and an index at or above the page count raises IndexError. An
empty document accepts no index. -/
def resolvePageIndex (n : Nat) (i : Int) : Except String Nat :=
  if (n : Int) ≤ i then .error "page not in document"
  else if 0 ≤ i then .ok i.toNat
  else if n = 0 then .error "page not in document"
  else .ok (i % (n : Int)).toNat

/-- One JSON edit instruction as received by the handler: every key may
be absent; values carry the types the handler expects of them. -/
structure EditRaw where
  pageNumber : Option Int := none
  originalText : Option String := none
  newText : Option String := none
  x : Option ℚ := none
  y : Option ℚ := none
  width : Option ℚ := none
  height : Option ℚ := none
  fontSize : Option ℚ := none
  color : Option String := none
  fontName : Option String := none
  fontWeight : Option Int := none
  deriving DecidableEq

/-- Python dict indexing edit[key]: an absent key raises KeyError, which
the handler's outer try turns into a request failure. -/
def reqF {α : Type} (o : Option α) (key : String) : Except String α :=
  match o with
  | some v => .ok v
  | none => .error ("KeyError: " ++ key)

/-- The generic families for which no Google Fonts download is attempted
(app.py line 156). -/
def genericFamilies : List String :=
  ["Georgia", "serif", "sans-serif", "Arial", "Helvetica"]

/-- Base-14 fallback font choice (app.py lines 172 and 186). -/
def base14Name (fontWeight : Int) : String :=
  if 700 ≤ fontWeight then "Helvetica-Bold" else "Helvetica"

/-- Outcome of the font-download-and-render attempt for one edit as the
edit loop observes it: the path of a font file that downloads and
renders successfully, or the exception message the try block catches. -/
def FontOracle : Type := String → Int → Except String String

/-- The white-out rectangle of one edit (app.py lines 146-148):
fitz.Rect(x, y, x + width, y + height) drawn with white stroke and
white fill. -/
def whiteRectOp (x y width height : ℚ) : PageOp :=
  PageOp.drawRect (x, y, x + width, y + height) (1, 1, 1) (1, 1, 1)

/-- The text-insertion operation of one edit (app.py lines 150-194):
baseline position (x, y + height - fontSize * 0.2); a non-empty family
outside the generic list is rendered with the font file the downloader
resolves, while any failure of that attempt, and every generic or empty
family, is rendered with the base-14 fallback, same position, size and
color, render_mode 0 throughout. -/
def insertOp (fo : FontOracle) (newText : String) (x y height fontSize : ℚ)
    (colorStr : String) (fontNameStr : String) (fontWeight : Int) : PageOp :=
  let color := parse_color colorStr
  let family := parseFamily fontNameStr
  let textY := y + height - fontSize * (1 / 5)
  if family ≠ "" ∧ family ∉ genericFamilies then
    match fo family fontWeight with
    | .ok path => PageOp.insertTextFile (x, textY) newText fontSize path color 0
    | .error _ =>
      PageOp.insertTextName (x, textY) newText fontSize (base14Name fontWeight) color 0
  else
    PageOp.insertTextName (x, textY) newText fontSize (base14Name fontWeight) color 0

/-- Embeds one iteration of the edit loop of edit_pdf (app.py lines
106-194): resolve the page from pageNumber, read the remaining fields in
source order, then record the white-out rectangle and the text insertion
on the page. Returns the page index and the updated page. -/
def applyEditCore (fo : FontOracle) (doc : PDFDoc) (e : EditRaw) :
    Except String (Nat × PDFPage) := do
  let pn ← reqF e.pageNumber "pageNumber"
  let idx ← resolvePageIndex doc.pages.length (pn - 1)
  let newText ← reqF e.newText "newText"
  let x ← reqF e.x "x"
  let y ← reqF e.y "y"
  let width ← reqF e.width "width"
  let height ← reqF e.height "height"
  let fontSize ← reqF e.fontSize "fontSize"
  let pg := doc.pages.getD idx {}
  return (idx, { pg with ops := pg.ops ++
    [whiteRectOp x y width height,
     insertOp fo newText x y height fontSize (e.color.getD "rgb(0, 0, 0)")
       (e.fontName.getD "") (e.fontWeight.getD 400)] })

/-- The loop body's effect on the whole document. -/
def applyEdit (fo : FontOracle) (doc : PDFDoc) (e : EditRaw) : Except String PDFDoc :=
  (applyEditCore fo doc e).map fun r => ⟨doc.pages.set r.1 r.2⟩

/-- The for-loop over the edit list (app.py line 106): the first failing
edit aborts the whole request. -/
def processEdits (fo : FontOracle) : PDFDoc → List EditRaw → Except String PDFDoc
  | doc, [] => .ok doc
  | doc, e :: rest =>
    match applyEdit fo doc e with
    | .error m => .error m
    | .ok d => processEdits fo d rest

/-- The HTTP response of the edit endpoint as far as the claims observe
it: a PDF payload, or an error status with a message and no document. -/
inductive EditResponse : Type
  | okPdf (doc : PDFDoc)
  | errResp (status : Nat) (msg : String)
  deriving DecidableEq

/-- Embeds the edit_pdf request handler (app.py lines 79-217): a missing
form field gives 400; any exception raised while editing gives 500 with
no output document; success returns the saved document. -/
def edit_pdf (fo : FontOracle) (pdf : Option PDFDoc)
    (edits : Option (List EditRaw)) : EditResponse :=
  match pdf with
  | none => .errResp 400 "No PDF file provided"
  | some doc =>
    match edits with
    | none => .errResp 400 "No edits provided"
    | some es =>
      match processEdits fo doc es with
      | .error m => .errResp 500 m
      | .ok d => .okPdf d

/-- The two outbound HTTP GETs of the downloader: stylesheet text by URL
and font bytes by URL; an error value stands for a requests exception
(connection error, non-2xx status, timeout). -/
structure NetworkOracle where
  css : String → Except String String
  file : String → Except String (List Nat)

/-- The on-disk font cache directory: file name to file bytes. -/
structure CacheState where
  files : List (String × List Nat)
  deriving DecidableEq

/-- Normalization of the family (google_fonts_downloader.py line 35):
family.strip().replace(' ', '+'). -/
def normalizeFamily (family : String) : String :=
  String.mk ((pyStrip family.data).map fun c => if c = ' ' then '+' else c)

/-- Cache file name (google_fonts_downloader.py line 38). -/
def cacheKey (family : String) (weight : Int) : String :=
  normalizeFamily family ++ "-" ++ toString weight ++ ".ttf"

/-- Full path of a cache file inside the cache directory. -/
def cachePath (key : String) : String :=
  "fonts_cache/" ++ key

/-- The literal characters before the captured group of the font-URL
regex of google_fonts_downloader.py line 58. -/
def urlOpenLit : List Char := "url(".data

/-- The literal host part that the captured URL must start with. -/
def gstaticLit : List Char := "https://fonts.gstatic.com/".data

/-- If l starts with the literal lit, return the remainder after it. -/
def dropLit : List Char → List Char → Option (List Char)
  | [], l => some l
  | _ :: _, [] => none
  | p :: ps, c :: cs => if c = p then dropLit ps cs else none

/-- Try to match the font-URL pattern at the head of l: the literal
url-paren and host, then one or more characters other than a closing
parenthesis, then a closing parenthesis; returns the captured URL. -/
def matchUrlAt (l : List Char) : Option String :=
  match dropLit (urlOpenLit ++ gstaticLit) l with
  | none => none
  | some rest =>
    let body := rest.takeWhile (fun c => c != ')')
    if body = [] then none else
    match rest.dropWhile (fun c => c != ')') with
    | ')' :: _ => some (String.mk (gstaticLit ++ body))
    | _ => none

/-- re.search of the font-URL pattern: first position, scanning left to
right, at which the pattern matches. -/
def searchFontUrl : List Char → Option String
  | [] => none
  | c :: rest =>
    match matchUrlAt (c :: rest) with
    | some u => some u
    | none => searchFontUrl rest

/-- Result of one download_font call: the returned path or the raised
ValueError, the cache directory afterwards, the number of outbound
network requests made, and whether a cache file was written. -/
structure DLOutcome where
  result : Except String String
  state : CacheState
  netCalls : Nat
  wrote : Bool

/-- Embeds GoogleFontsDownloader.download_font (google_fonts_downloader.py
lines 20-79): normalize the family, return the cache path immediately on
a cache hit, otherwise fetch the stylesheet, extract the first gstatic
URL from it, fetch the font bytes and write them to the cache path. -/
def download_font (net : NetworkOracle) (st : CacheState) (family : String)
    (weight : Int) : DLOutcome :=
  let fam := normalizeFamily family
  let key := cacheKey family weight
  match lookupA st.files key with
  | some _ => ⟨.ok (cachePath key), st, 0, false⟩
  | none =>
    let cssUrl := "https://fonts.googleapis.com/css2?family=" ++ fam ++
      ":wght@" ++ toString weight ++ "&display=swap"
    match net.css cssUrl with
    | .error e => ⟨.error ("Failed to download font: " ++ e), st, 1, false⟩
    | .ok cssText =>
      match searchFontUrl cssText.data with
      | none => ⟨.error ("Could not find font URL in CSS for " ++ fam), st, 1, false⟩
      | some fontUrl =>
        match net.file fontUrl with
        | .error e => ⟨.error ("Failed to download font: " ++ e), st, 2, false⟩
        | .ok bytes => ⟨.ok (cachePath key), ⟨st.files ++ [(key, bytes)]⟩, 2, true⟩

/-- The tuple returned by fitz Document.extract_font: basename,
extension, type, and the raw font program bytes. -/
structure ExtractBuf where
  basename : String
  ext : String
  ftype : String
  content : List Nat
  deriving DecidableEq

/-- Per-xref behaviour of doc.extract_font: a buffer, or an exception. -/
def ExtractOracle : Type := Nat → Except String ExtractBuf

/-- The metadata recorded per font by extract_fonts. -/
structure FontMeta where
  ftype : String
  ext : String
  size : Nat
  pages : List Nat
  deriving DecidableEq

/-- The base64 alphabet. -/
def b64Chars : List Char :=
  "ABCDEFGHIJKLMNOPQRSTUVWXYZabcdefghijklmnopqrstuvwxyz0123456789+/".data

/-- Character of one 6-bit group. -/
def b64Char (n : Nat) : Char := b64Chars.getD n 'A'

/-- base64.b64encode on a byte list. -/
def base64Encode : List Nat → List Char
  | [] => []
  | [a] => [b64Char (a / 4 % 64), b64Char (a % 4 * 16), '=', '=']
  | [a, b] =>
    [b64Char (a / 4 % 64), b64Char (a % 4 * 16 + b / 16 % 16), b64Char (b % 16 * 4), '=']
  | a :: b :: c :: rest =>
    [b64Char (a / 4 % 64), b64Char (a % 4 * 16 + b / 16 % 16),
      b64Char (b % 16 * 4 + c / 64 % 4), b64Char (c % 64)] ++ base64Encode rest

/-- The two dicts built by extract_fonts, in insertion order. -/
structure ExtractState where
  fonts : List (String × String)
  metadata : List (String × FontMeta)
  deriving DecidableEq

/-- Embeds the inner loop body of extract_fonts (app.py lines 43-64) for
one referenced font on the 1-indexed page pageNo: skip names already in
the fonts dict, otherwise attempt extraction, and record the base64
bytes and the metadata only when the buffer has a basename and
non-empty bytes; any extraction exception is swallowed. -/
def extractStep (ex : ExtractOracle) (pageNo : Nat) (st : ExtractState)
    (f : FontRef) : ExtractState :=
  match lookupA st.fonts f.name with
  | some _ => st
  | none =>
    match ex f.xref with
    | .error _ => st
    | .ok buf =>
      if buf.basename ≠ "" then
        if buf.content ≠ [] then
          { fonts := st.fonts ++ [(f.name, String.mk (base64Encode buf.content))],
            metadata := st.metadata ++
              [(f.name, ⟨f.ftype, buf.ext, buf.content.length, [pageNo]⟩)] }
        else st
      else st

/-- Embeds the page loop of extract_fonts (app.py lines 39-64). -/
def extract_fonts (ex : ExtractOracle) (doc : PDFDoc) : ExtractState :=
  doc.pages.enum.foldl
    (fun st pp => pp.2.fonts.foldl (extractStep ex (pp.1 + 1)) st) ⟨[], []⟩

/-- All (1-indexed page, font reference) occurrences of the document in
iteration order. -/
def occList (doc : PDFDoc) : List (Nat × FontRef) :=
  doc.pages.enum.flatMap fun pp => pp.2.fonts.map fun f => (pp.1 + 1, f)

/-- Whether extraction of this occurrence succeeds with a non-empty
basename and non-empty bytes. -/
def goodOcc (ex : ExtractOracle) (pf : Nat × FontRef) : Bool :=
  match ex pf.2.xref with
  | .ok buf => buf.basename != "" && buf.content != []
  | .error _ => false

/-- The first occurrence of the given font name whose extraction
succeeds with non-empty bytes. -/
def firstGood (ex : ExtractOracle) (name : String)
    (occs : List (Nat × FontRef)) : Option (Nat × FontRef) :=
  occs.find? fun pf => pf.2.name == name && goodOcc ex pf

/-- The metadata entry the loop records for a good occurrence. -/
def extractedMeta (ex : ExtractOracle) (pf : Nat × FontRef) : FontMeta :=
  match ex pf.2.xref with
  | .ok buf => ⟨pf.2.ftype, buf.ext, buf.content.length, [pf.1]⟩
  | .error _ => ⟨pf.2.ftype, "bin", 0, [pf.1]⟩

/-- The base64 payload the loop records for a good occurrence. -/
def extractedB64 (ex : ExtractOracle) (pf : Nat × FontRef) : String :=
  match ex pf.2.xref with
  | .ok buf => String.mk (base64Encode buf.content)
  | .error _ => ""

/-- Decimal digit characters. -/
def digitChar10 : Nat → Char
  | 0 => '0'
  | 1 => '1'
  | 2 => '2'
  | 3 => '3'
  | 4 => '4'
  | 5 => '5'
  | 6 => '6'
  | 7 => '7'
  | 8 => '8'
  | _ => '9'

/-- Decimal representation of n as characters. -/
def digitsOf (n : Nat) : List Char :=
  if n = 0 then ['0'] else ((Nat.digits 10 n).map digitChar10).reverse

/-- The character data of the literal string rgb(R, G, B). -/
def rgbData (r g b : Nat) : List Char :=
  ('r' :: 'g' :: 'b' :: '(' :: digitsOf r) ++ (',' :: ' ' :: digitsOf g) ++
    (',' :: ' ' :: digitsOf b) ++ [')']

/-- A string exactly of the literal form rgb(R, G, B) with all three
channels between 0 and 255, the form named by claim C2. -/
def isExactRGB255 (s : String) : Prop :=
  ∃ r g b : Nat, r ≤ 255 ∧ g ≤ 255 ∧ b ≤ 255 ∧ s = String.mk (rgbData r g b)

/-- The HTTP status of a response, none for a success payload. -/
def responseStatus : EditResponse → Option Nat
  | .okPdf _ => none
  | .errResp s _ => some s

/-- A font oracle for a machine with no network: every download fails. -/
def fo0 : FontOracle := fun _ _ => .error "network unavailable"

/-- A font oracle whose downloads all succeed with a fixed cache path. -/
def foOK : FontOracle := fun _ _ => .ok "fonts_cache/Rubik-700.ttf"

/-- A one-page document with no recorded operations. -/
def doc1 : PDFDoc := ⟨[{}]⟩

/-- A complete edit instruction targeting page 1 with the generic family
Arial. -/
def editA : EditRaw :=
  { pageNumber := some 1, newText := some "Hello", x := some 10, y := some 20,
    width := some 100, height := some 30, fontSize := some 12,
    fontName := some "Arial", fontWeight := some 400 }

/-- An edit instruction with pageNumber 0, otherwise complete. -/
def edit0 : EditRaw :=
  { pageNumber := some 0, newText := some "Hi", x := some 1, y := some 2,
    width := some 3, height := some 4, fontSize := some 10 }

/-- An edit instruction with pageNumber 5, otherwise complete. -/
def editB : EditRaw :=
  { pageNumber := some 5, newText := some "Hi", x := some 1, y := some 2,
    width := some 3, height := some 4, fontSize := some 10 }

/-- An edit instruction missing the required field x. -/
def editC : EditRaw :=
  { pageNumber := some 1, newText := some "Hi", y := some 2,
    width := some 3, height := some 4, fontSize := some 10 }

/-- A complete edit instruction requesting the downloadable family
Rubik at weight 700. -/
def editR : EditRaw :=
  { pageNumber := some 1, newText := some "New", x := some 5, y := some 7,
    width := some 50, height := some 20, fontSize := some 10,
    color := some "rgb(255, 128, 0)", fontName := some "Rubik-Bold, Georgia, serif",
    fontWeight := some 700 }

/-- A cache directory already holding the Rubik 700 font file. -/
def stC : CacheState := ⟨[("Rubik-700.ttf", [1])]⟩

/-- A network oracle whose stylesheet contains one gstatic URL and whose
file fetch returns two bytes. -/
def netD : NetworkOracle :=
  ⟨fun _ => .ok "src: url(https://fonts.gstatic.com/a.ttf)", fun _ => .ok [1, 2]⟩

/-- The cache directory after netD serves the Rubik 700 download into an
empty cache. -/
def stD : CacheState := ⟨[("Rubik-700.ttf", [1, 2])]⟩

/-- A two-page document both of whose pages reference a font named F0,
through xref 1 on page 1 and xref 2 on page 2. -/
def docC7 : PDFDoc :=
  ⟨[⟨[⟨1, "Type0", "F0"⟩], []⟩, ⟨[⟨2, "Type0", "F0"⟩], []⟩]⟩

/-- An extraction oracle that fails on xref 1 and succeeds on xref 2
with three bytes. -/
def exC7 : ExtractOracle := fun x =>
  if x = 2 then .ok ⟨"ABCDEF+F0", "ttf", "Type0", [77, 97, 110]⟩
  else .error "extraction failed"

/-- The document produced by applying editA to doc1. -/
def outA : PDFDoc :=
  ⟨doc1.pages.set 0 { doc1.pages.getD 0 {} with ops := (doc1.pages.getD 0 {}).ops ++
    [whiteRectOp 10 20 100 30,
     insertOp fo0 "Hello" 10 20 30 12 (editA.color.getD "rgb(0, 0, 0)")
       (editA.fontName.getD "") (editA.fontWeight.getD 400)] }⟩

/-- The document produced by applying edit0 to doc1. -/
def out0 : PDFDoc :=
  ⟨doc1.pages.set 0 { doc1.pages.getD 0 {} with ops := (doc1.pages.getD 0 {}).ops ++
    [whiteRectOp 1 2 3 4,
     insertOp fo0 "Hi" 1 2 4 10 (edit0.color.getD "rgb(0, 0, 0)")
       (edit0.fontName.getD "") (edit0.fontWeight.getD 400)] }⟩

/-- Folding the extraction step over a flattened occurrence list. -/
def extractFold (ex : ExtractOracle) (st : ExtractState)
    (occs : List (Nat × FontRef)) : ExtractState :=
  occs.foldl (fun st pf => extractStep ex pf.1 st pf.2) st

/-- First lookup result if present, otherwise the fallback. -/
def orLookup {α : Type} (o : Option α) (fallback : Option α) : Option α :=
  match o with
  | some v => some v
  | none => fallback

theorem ok_bind {ε α β : Type} (v : α) (f : α → Except ε β) :
    (Except.ok v >>= f) = f v := rfl

theorem error_bind {ε α β : Type} (m : ε) (f : α → Except ε β) :
    ((Except.error m : Except ε α) >>= f) = .error m := rfl

theorem applyEdit_ok {fo : FontOracle} {doc : PDFDoc} {e : EditRaw} {d : PDFDoc}
    (h : applyEdit fo doc e = .ok d) :
    ∃ r, applyEditCore fo doc e = .ok r ∧ d = ⟨doc.pages.set r.1 r.2⟩ := by
  unfold applyEdit at h
  cases hc : applyEditCore fo doc e with
  | error m => rw [hc] at h; exact absurd h (by simp [Except.map])
  | ok r =>
    rw [hc] at h
    simp only [Except.map, Except.ok.injEq] at h
    exact ⟨r, rfl, h.symm⟩

theorem applyEdit_error_of_core {fo : FontOracle} {doc : PDFDoc} {e : EditRaw}
    {m : String} (h : applyEditCore fo doc e = .error m) :
    applyEdit fo doc e = .error m := by
  unfold applyEdit; rw [h]; rfl

theorem applyEdit_length {fo : FontOracle} {doc : PDFDoc} {e : EditRaw}
    {d : PDFDoc} (h : applyEdit fo doc e = .ok d) :
    d.pages.length = doc.pages.length := by
  obtain ⟨r, _, rfl⟩ := applyEdit_ok h
  simp

theorem processEdits_length {fo : FontOracle} :
    ∀ {edits : List EditRaw} {doc d : PDFDoc},
      processEdits fo doc edits = .ok d → d.pages.length = doc.pages.length := by
  intro edits
  induction edits with
  | nil =>
    intro doc d h
    unfold processEdits at h
    simp only [Except.ok.injEq] at h
    rw [← h]
  | cons e rest ih =>
    intro doc d h
    unfold processEdits at h
    cases hc : applyEdit fo doc e with
    | error m => rw [hc] at h; exact absurd h (by simp)
    | ok d1 =>
      rw [hc] at h
      exact (ih h).trans (applyEdit_length hc)

theorem core_eval {fo : FontOracle} {d : PDFDoc} {e : EditRaw} {pn : Int}
    {nt : String} {x y w h fs : ℚ} {idx : Nat}
    (hpn : e.pageNumber = some pn)
    (hidx : resolvePageIndex d.pages.length (pn - 1) = .ok idx)
    (hnt : e.newText = some nt) (hx : e.x = some x) (hy : e.y = some y)
    (hw : e.width = some w) (hh : e.height = some h) (hfs : e.fontSize = some fs) :
    applyEdit fo d e = .ok ⟨d.pages.set idx
      { d.pages.getD idx {} with ops := (d.pages.getD idx {}).ops ++
        [whiteRectOp x y w h,
         insertOp fo nt x y h fs (e.color.getD "rgb(0, 0, 0)") (e.fontName.getD "")
           (e.fontWeight.getD 400)] }⟩ := by
  simp only [applyEdit, applyEditCore, hpn, hnt, hx, hy, hw, hh, hfs, reqF,
    ok_bind, hidx, Except.map]
  rfl

theorem core_ok_fields {fo : FontOracle} {d : PDFDoc} {e : EditRaw}
    {r : Nat × PDFPage} (h : applyEditCore fo d e = .ok r) :
    e.pageNumber.isSome ∧ e.newText.isSome ∧ e.x.isSome ∧ e.y.isSome ∧
      e.width.isSome ∧ e.height.isSome ∧ e.fontSize.isSome := by
  unfold applyEditCore at h
  cases hpn : e.pageNumber with
  | none => rw [hpn] at h; simp only [reqF, error_bind] at h; exact Except.noConfusion h
  | some pn =>
  rw [hpn] at h
  simp only [reqF, ok_bind] at h
  cases hr : resolvePageIndex d.pages.length (pn - 1) with
  | error m => rw [hr] at h; simp only [error_bind] at h; exact Except.noConfusion h
  | ok idx =>
  rw [hr] at h
  simp only [ok_bind] at h
  cases hnt : e.newText with
  | none => rw [hnt] at h; simp only [reqF, error_bind] at h; exact Except.noConfusion h
  | some nt =>
  rw [hnt] at h
  simp only [reqF, ok_bind] at h
  cases hx : e.x with
  | none => rw [hx] at h; simp only [reqF, error_bind] at h; exact Except.noConfusion h
  | some x =>
  rw [hx] at h
  simp only [reqF, ok_bind] at h
  cases hy : e.y with
  | none => rw [hy] at h; simp only [reqF, error_bind] at h; exact Except.noConfusion h
  | some y =>
  rw [hy] at h
  simp only [reqF, ok_bind] at h
  cases hw : e.width with
  | none => rw [hw] at h; simp only [reqF, error_bind] at h; exact Except.noConfusion h
  | some w =>
  rw [hw] at h
  simp only [reqF, ok_bind] at h
  cases hh : e.height with
  | none => rw [hh] at h; simp only [reqF, error_bind] at h; exact Except.noConfusion h
  | some hh2 =>
  rw [hh] at h
  simp only [reqF, ok_bind] at h
  cases hfs : e.fontSize with
  | none => rw [hfs] at h; simp only [reqF, error_bind] at h; exact Except.noConfusion h
  | some fs =>
  simp [hpn, hnt, hx, hy, hw, hh, hfs]

theorem core_err_missing {fo : FontOracle} {e : EditRaw}
    (hmiss : e.pageNumber = none ∨ e.newText = none ∨ e.x = none ∨ e.y = none ∨
      e.width = none ∨ e.height = none ∨ e.fontSize = none) (d : PDFDoc) :
    ∃ m, applyEdit fo d e = .error m := by
  cases hc : applyEditCore fo d e with
  | error m => exact ⟨m, applyEdit_error_of_core hc⟩
  | ok r =>
    obtain ⟨h1, h2, h3, h4, h5, h6, h7⟩ := core_ok_fields hc
    rcases hmiss with h | h | h | h | h | h | h
    · rw [h] at h1; exact absurd h1 (by simp)
    · rw [h] at h2; exact absurd h2 (by simp)
    · rw [h] at h3; exact absurd h3 (by simp)
    · rw [h] at h4; exact absurd h4 (by simp)
    · rw [h] at h5; exact absurd h5 (by simp)
    · rw [h] at h6; exact absurd h6 (by simp)
    · rw [h] at h7; exact absurd h7 (by simp)

theorem core_err_page {fo : FontOracle} {e : EditRaw} {n : Int}
    (hpn : e.pageNumber = some n) {d : PDFDoc}
    (hgt : (d.pages.length : Int) < n) :
    applyEdit fo d e = .error "page not in document" := by
  apply applyEdit_error_of_core
  unfold applyEditCore
  rw [hpn]
  simp only [reqF, ok_bind]
  have hres : resolvePageIndex d.pages.length (n - 1) = .error "page not in document" := by
    unfold resolvePageIndex
    rw [if_pos (by omega)]
  rw [hres, error_bind]

theorem processEdits_err {fo : FontOracle} {L : Nat} {e : EditRaw}
    (hbad : ∀ d : PDFDoc, d.pages.length = L → ∃ m, applyEdit fo d e = .error m) :
    ∀ {edits : List EditRaw} {doc : PDFDoc}, doc.pages.length = L → e ∈ edits →
      ∃ m, processEdits fo doc edits = .error m := by
  intro edits
  induction edits with
  | nil => intro doc _ hm; exact absurd hm (List.not_mem_nil e)
  | cons f rest ih =>
    intro doc hdoc hm
    rcases List.mem_cons.mp hm with rfl | hm2
    · obtain ⟨m, hm'⟩ := hbad doc hdoc
      exact ⟨m, by unfold processEdits; rw [hm']⟩
    · cases hc : applyEdit fo doc f with
      | error m => exact ⟨m, by unfold processEdits; rw [hc]⟩
      | ok d1 =>
        obtain ⟨m, hm'⟩ := ih ((applyEdit_length hc).trans hdoc) hm2
        exact ⟨m, by unfold processEdits; rw [hc]; exact hm'⟩

/-- C6: for every input document and edit list for which the edit loop
succeeds, the returned document has exactly as many pages as the input
document: applying edits never adds or removes pages. -/
theorem C6_page_count_preserved (fo : FontOracle) (doc out : PDFDoc)
    (edits : List EditRaw) (h : processEdits fo doc edits = .ok out) :
    out.pages.length = doc.pages.length :=
  processEdits_length h

/-- Witness for C6: a concrete successful run preserves the page count. -/
theorem C6_witness : outA.pages.length = doc1.pages.length :=
  C6_page_count_preserved fo0 doc1 outA [editA]
    (by
      have h : applyEdit fo0 doc1 editA = .ok outA :=
        core_eval rfl rfl rfl rfl rfl rfl rfl rfl
      unfold processEdits
      rw [h]
      rfl)

/-- C1 (amended): an edit list containing an instruction whose
pageNumber is present and strictly greater than the document's page
count makes the whole request fail with a 500 error response, so no
partial or complete output document is produced. (The original claim
covered every pageNumber outside 1..pageCount; C1_counterexample shows
values at or below 0 are instead resolved from the end of the
document, as claim C9 states.) -/
theorem C1_out_of_range_amended (fo : FontOracle) (doc : PDFDoc)
    (edits : List EditRaw) (e : EditRaw) (n : Int) (hmem : e ∈ edits)
    (hpn : e.pageNumber = some n) (hgt : (doc.pages.length : Int) < n) :
    responseStatus (edit_pdf fo (some doc) (some edits)) = some 500 := by
  have hbad : ∀ d : PDFDoc, d.pages.length = doc.pages.length →
      ∃ m, applyEdit fo d e = .error m :=
    fun d hd => ⟨_, core_err_page hpn (by rw [hd]; exact hgt)⟩
  obtain ⟨m, hm⟩ := processEdits_err hbad rfl hmem
  simp only [edit_pdf, hm]
  rfl

/-- C1 counterexample: pageNumber 0 is not a valid 1-indexed page of the
one-page document doc1 (its only valid page number is 1), yet the edit
request does not fail: it succeeds and returns a modified document,
because internal index -1 selects the last page. -/
theorem C1_counterexample :
    edit0.pageNumber = some 0 ∧ doc1.pages.length = 1 ∧
    edit_pdf fo0 (some doc1) (some [edit0]) = .okPdf out0 := by
  refine ⟨rfl, rfl, ?_⟩
  have h : applyEdit fo0 doc1 edit0 = .ok out0 :=
    core_eval rfl rfl rfl rfl rfl rfl rfl rfl
  simp only [edit_pdf, processEdits, h]

/-- Witness for C1 (amended): pageNumber 5 against a one-page document
yields a 500 error response. -/
theorem C1_witness :
    responseStatus (edit_pdf fo0 (some doc1) (some [editB])) = some 500 :=
  C1_out_of_range_amended fo0 doc1 [editB] editB 5 (by simp) rfl (by decide)

/-- C10: within one edit instruction the fields originalText, color,
fontName and fontWeight are optional, defaulting to the empty string,
rgb(0, 0, 0), the empty string and 400 respectively, so filling in
those defaults explicitly leaves the edit's effect unchanged; whereas
an edit missing any of pageNumber, newText, x, y, width, height or
fontSize makes the whole request fail with a 500 error response and no
output document. -/
theorem C10_required_and_optional_fields :
    (∀ (fo : FontOracle) (doc : PDFDoc) (e : EditRaw),
      applyEdit fo doc e = applyEdit fo doc
        { e with originalText := some (e.originalText.getD ""),
                 color := some (e.color.getD "rgb(0, 0, 0)"),
                 fontName := some (e.fontName.getD ""),
                 fontWeight := some (e.fontWeight.getD 400) }) ∧
    (∀ (fo : FontOracle) (doc : PDFDoc) (edits : List EditRaw) (e : EditRaw),
      e ∈ edits →
      (e.pageNumber = none ∨ e.newText = none ∨ e.x = none ∨ e.y = none ∨
        e.width = none ∨ e.height = none ∨ e.fontSize = none) →
      responseStatus (edit_pdf fo (some doc) (some edits)) = some 500) := by
  constructor
  · intro fo doc e
    rfl
  · intro fo doc edits e hmem hmiss
    have hbad : ∀ d : PDFDoc, d.pages.length = doc.pages.length →
        ∃ m, applyEdit fo d e = .error m :=
      fun d _ => core_err_missing hmiss d
    obtain ⟨m, hm⟩ := processEdits_err hbad rfl hmem
    simp only [edit_pdf, hm]
    rfl

/-- Witness for C10: the defaults leave a concrete edit unchanged, and a
concrete edit missing x yields a 500 error response. -/
theorem C10_witness :
    (applyEdit fo0 doc1 editA = applyEdit fo0 doc1
      { editA with originalText := some (editA.originalText.getD ""),
                   color := some (editA.color.getD "rgb(0, 0, 0)"),
                   fontName := some (editA.fontName.getD ""),
                   fontWeight := some (editA.fontWeight.getD 400) }) ∧
    responseStatus (edit_pdf fo0 (some doc1) (some [editC])) = some 500 :=
  ⟨C10_required_and_optional_fields.1 fo0 doc1 editA,
   C10_required_and_optional_fields.2 fo0 doc1 [editC] editC (by simp)
     (Or.inr (Or.inr (Or.inl rfl)))⟩

theorem insertOp_pos (fo : FontOracle) (nt : String) (x y h fs : ℚ)
    (cs fn : String) (fw : Int) :
    (insertOp fo nt x y h fs cs fn fw).insertPos = some (x, y + h - fs * (1 / 5)) := by
  simp only [insertOp]
  split
  · cases hfo : fo (parseFamily fn) fw <;> rfl
  · rfl

theorem insertOp_fallback {fo : FontOracle} {fn : String} {fw : Int} {msg : String}
    (hfam : parseFamily fn ≠ "" ∧ parseFamily fn ∉ genericFamilies)
    (hfail : fo (parseFamily fn) fw = .error msg)
    (nt : String) (x y h fs : ℚ) (cs : String) :
    insertOp fo nt x y h fs cs fn fw =
      PageOp.insertTextName (x, y + h - fs * (1 / 5)) nt fs (base14Name fw)
        (parse_color cs) 0 := by
  simp only [insertOp]
  rw [if_pos hfam, hfail]

theorem insertOp_file {fo : FontOracle} {fn : String} {fw : Int} {path : String}
    (hfam : parseFamily fn ≠ "" ∧ parseFamily fn ∉ genericFamilies)
    (hok : fo (parseFamily fn) fw = .ok path)
    (nt : String) (x y h fs : ℚ) (cs : String) :
    insertOp fo nt x y h fs cs fn fw =
      PageOp.insertTextFile (x, y + h - fs * (1 / 5)) nt fs path
        (parse_color cs) 0 := by
  simp only [insertOp]
  rw [if_pos hfam, hok]

/-- C8: for every edit with the required fields present and a resolvable
page, the operations recorded on the page are exactly a white-out
rectangle over (x, y, x + width, y + height) followed by a text
insertion whose vertical position is y + height - fontSize * 0.2. -/
theorem C8_geometry (fo : FontOracle) (doc : PDFDoc) (e : EditRaw) (pn : Int)
    (nt : String) (x y w h fs : ℚ) (idx : Nat)
    (hpn : e.pageNumber = some pn)
    (hidx : resolvePageIndex doc.pages.length (pn - 1) = .ok idx)
    (hnt : e.newText = some nt) (hx : e.x = some x) (hy : e.y = some y)
    (hw : e.width = some w) (hh : e.height = some h) (hfs : e.fontSize = some fs) :
    applyEdit fo doc e = .ok ⟨doc.pages.set idx
      { doc.pages.getD idx {} with ops := (doc.pages.getD idx {}).ops ++
        [whiteRectOp x y w h,
         insertOp fo nt x y h fs (e.color.getD "rgb(0, 0, 0)") (e.fontName.getD "")
           (e.fontWeight.getD 400)] }⟩ ∧
    whiteRectOp x y w h = PageOp.drawRect (x, y, x + w, y + h) (1, 1, 1) (1, 1, 1) ∧
    (insertOp fo nt x y h fs (e.color.getD "rgb(0, 0, 0)") (e.fontName.getD "")
      (e.fontWeight.getD 400)).insertPos = some (x, y + h - fs * (1 / 5)) :=
  ⟨core_eval hpn hidx hnt hx hy hw hh hfs, rfl,
   insertOp_pos fo nt x y h fs (e.color.getD "rgb(0, 0, 0)") (e.fontName.getD "")
     (e.fontWeight.getD 400)⟩

/-- Witness for C8 at a concrete edit. -/
theorem C8_witness :
    applyEdit fo0 doc1 editR = .ok ⟨doc1.pages.set 0
      { doc1.pages.getD 0 {} with ops := (doc1.pages.getD 0 {}).ops ++
        [whiteRectOp 5 7 50 20,
         insertOp fo0 "New" 5 7 20 10 (editR.color.getD "rgb(0, 0, 0)")
           (editR.fontName.getD "") (editR.fontWeight.getD 400)] }⟩ ∧
    whiteRectOp 5 7 50 20 = PageOp.drawRect (5, 7, 5 + 50, 7 + 20) (1, 1, 1) (1, 1, 1) ∧
    (insertOp fo0 "New" 5 7 20 10 (editR.color.getD "rgb(0, 0, 0)")
      (editR.fontName.getD "") (editR.fontWeight.getD 400)).insertPos =
      some (5, 7 + 20 - 10 * (1 / 5)) :=
  C8_geometry fo0 doc1 editR 1 "New" 5 7 50 20 10 0 rfl rfl rfl rfl rfl rfl rfl rfl

/-- C3: when the downloadable-font attempt for an edit fails, the
request is not aborted: the edit still succeeds and renders with the
base-14 fallback font, bold exactly when fontWeight is at least 700, at
the same position, size and color as a successful downloaded-font
rendering would use; the font error never reaches the response. -/
theorem C3_font_fallback (fo : FontOracle) (doc : PDFDoc) (e : EditRaw) (pn : Int)
    (nt : String) (x y w h fs : ℚ) (idx : Nat) (msg : String)
    (hpn : e.pageNumber = some pn)
    (hidx : resolvePageIndex doc.pages.length (pn - 1) = .ok idx)
    (hnt : e.newText = some nt) (hx : e.x = some x) (hy : e.y = some y)
    (hw : e.width = some w) (hh : e.height = some h) (hfs : e.fontSize = some fs)
    (hfam : parseFamily (e.fontName.getD "") ≠ "" ∧
      parseFamily (e.fontName.getD "") ∉ genericFamilies)
    (hfail : fo (parseFamily (e.fontName.getD "")) (e.fontWeight.getD 400) = .error msg) :
    applyEdit fo doc e = .ok ⟨doc.pages.set idx
      { doc.pages.getD idx {} with ops := (doc.pages.getD idx {}).ops ++
        [whiteRectOp x y w h,
         PageOp.insertTextName (x, y + h - fs * (1 / 5)) nt fs
           (base14Name (e.fontWeight.getD 400))
           (parse_color (e.color.getD "rgb(0, 0, 0)")) 0] }⟩ ∧
    (∀ (g : FontOracle) (path : String),
      g (parseFamily (e.fontName.getD "")) (e.fontWeight.getD 400) = .ok path →
      applyEdit g doc e = .ok ⟨doc.pages.set idx
        { doc.pages.getD idx {} with ops := (doc.pages.getD idx {}).ops ++
          [whiteRectOp x y w h,
           PageOp.insertTextFile (x, y + h - fs * (1 / 5)) nt fs path
             (parse_color (e.color.getD "rgb(0, 0, 0)")) 0] }⟩) ∧
    (700 ≤ e.fontWeight.getD 400 → base14Name (e.fontWeight.getD 400) = "Helvetica-Bold") ∧
    (e.fontWeight.getD 400 < 700 → base14Name (e.fontWeight.getD 400) = "Helvetica") := by
  refine ⟨?_, ?_, ?_, ?_⟩
  · rw [core_eval hpn hidx hnt hx hy hw hh hfs,
      insertOp_fallback hfam hfail nt x y h fs (e.color.getD "rgb(0, 0, 0)")]
  · intro g path hok
    rw [core_eval hpn hidx hnt hx hy hw hh hfs,
      insertOp_file hfam hok nt x y h fs (e.color.getD "rgb(0, 0, 0)")]
  · intro h700
    unfold base14Name
    rw [if_pos h700]
  · intro h700
    unfold base14Name
    rw [if_neg (by omega)]

/-- Witness for C3: a failing downloader on the Rubik-Bold edit still
yields a successful edit using Helvetica-Bold. -/
theorem C3_witness :
    applyEdit fo0 doc1 editR = .ok ⟨doc1.pages.set 0
      { doc1.pages.getD 0 {} with ops := (doc1.pages.getD 0 {}).ops ++
        [whiteRectOp 5 7 50 20,
         PageOp.insertTextName (5, 7 + 20 - 10 * (1 / 5)) "New" 10
           (base14Name (editR.fontWeight.getD 400))
           (parse_color (editR.color.getD "rgb(0, 0, 0)")) 0] }⟩ :=
  (C3_font_fallback fo0 doc1 editR 1 "New" 5 7 50 20 10 0 "network unavailable"
    rfl rfl rfl rfl rfl rfl rfl rfl (by decide) rfl).1

/-- C9: for a non-empty document, pageNumber 0 is not rejected: internal
index -1 resolves to the last page; generally every pageNumber from
1 - pageCount up to 0 resolves to the existing page counted from the
end, and an edit carrying such a pageNumber is applied there. -/
theorem C9_nonpositive_page_numbers (len : Nat) (hlen : 0 < len) :
    (resolvePageIndex len ((0 : Int) - 1) = .ok (len - 1)) ∧
    (∀ pn : Int, 1 - (len : Int) ≤ pn → pn ≤ 0 →
      resolvePageIndex len (pn - 1) = .ok ((len : Int) + pn - 1).toNat) ∧
    (∀ (fo : FontOracle) (doc : PDFDoc) (e : EditRaw) (nt : String) (x y w h fs : ℚ),
      doc.pages.length = len → e.pageNumber = some 0 → e.newText = some nt →
      e.x = some x → e.y = some y → e.width = some w → e.height = some h →
      e.fontSize = some fs →
      applyEdit fo doc e = .ok ⟨doc.pages.set (len - 1)
        { doc.pages.getD (len - 1) {} with ops := (doc.pages.getD (len - 1) {}).ops ++
          [whiteRectOp x y w h,
           insertOp fo nt x y h fs (e.color.getD "rgb(0, 0, 0)") (e.fontName.getD "")
             (e.fontWeight.getD 400)] }⟩) := by
  have hres : ∀ pn : Int, 1 - (len : Int) ≤ pn → pn ≤ 0 →
      resolvePageIndex len (pn - 1) = .ok ((len : Int) + pn - 1).toNat := by
    intro pn h1 h2
    unfold resolvePageIndex
    rw [if_neg (by omega), if_neg (by omega), if_neg (by omega)]
    have hm : (pn - 1) % (len : Int) = (len : Int) + pn - 1 := by
      have ha : (pn - 1 + (len : Int) * 1) % (len : Int) = (pn - 1) % (len : Int) :=
        Int.add_mul_emod_self_left (pn - 1) (len : Int) 1
      rw [mul_one] at ha
      rw [← ha, Int.emod_eq_of_lt (by omega) (by omega)]
      omega
    rw [hm]
  have h0 : resolvePageIndex len ((0 : Int) - 1) = .ok (len - 1) := by
    rw [hres 0 (by omega) (by omega)]
    exact congrArg Except.ok (by omega)
  refine ⟨h0, hres, ?_⟩
  intro fo doc e nt x y w h fs hdoc hpn hnt hx hy hw hh hfs
  exact core_eval hpn (by rw [hdoc]; exact h0) hnt hx hy hw hh hfs

/-- Witness for C9: in a one-page document, pageNumber 0 resolves to
page index 0, the only page. -/
theorem C9_witness : resolvePageIndex 1 ((0 : Int) - 1) = .ok (1 - 1) :=
  (C9_nonpositive_page_numbers 1 (by decide)).1

theorem lookupA_append_some {α : Type} {l : List (String × α)} {k : String} {v : α}
    (h : lookupA l k = some v) (m : List (String × α)) :
    lookupA (l ++ m) k = some v := by
  induction l with
  | nil => exact absurd h (by simp [lookupA])
  | cons a rest ih =>
    obtain ⟨k2, w⟩ := a
    simp only [List.cons_append, lookupA] at h ⊢
    by_cases hk : k2 = k
    · rw [if_pos hk] at h ⊢; exact h
    · rw [if_neg hk] at h ⊢; exact ih h

theorem lookupA_append_none {α : Type} {l : List (String × α)} {k : String}
    (h : lookupA l k = none) (m : List (String × α)) :
    lookupA (l ++ m) k = lookupA m k := by
  induction l with
  | nil => rfl
  | cons a rest ih =>
    obtain ⟨k2, v⟩ := a
    simp only [List.cons_append, lookupA] at h ⊢
    by_cases hk : k2 = k
    · rw [if_pos hk] at h; exact absurd h (by simp)
    · rw [if_neg hk] at h ⊢; exact ih h

/-- C4: the downloader's cache key is the normalized family (trimmed,
internal spaces replaced by plus signs) joined with the weight as
family-weight.ttf; whenever a file with that name already exists in the
cache directory, resolution returns its path immediately with no
network call and no file write; consequently once a pair has resolved
successfully, a second resolution of the same pair returns the same
path with no network call and no file write. -/
theorem C4_cache_behaviour (net : NetworkOracle) (st : CacheState)
    (family : String) (weight : Int) :
    (cacheKey family weight =
      normalizeFamily family ++ "-" ++ toString weight ++ ".ttf") ∧
    (∀ bytes, lookupA st.files (cacheKey family weight) = some bytes →
      download_font net st family weight =
        ⟨.ok (cachePath (cacheKey family weight)), st, 0, false⟩) ∧
    (∀ (p : String) (s : CacheState) (k : Nat) (w : Bool) (net2 : NetworkOracle),
      download_font net st family weight = ⟨.ok p, s, k, w⟩ →
      download_font net2 s family weight = ⟨.ok p, s, 0, false⟩) := by
  refine ⟨rfl, ?_, ?_⟩
  · intro bytes hb
    simp only [download_font]
    rw [hb]
  · intro p s k w net2 hfirst
    simp only [download_font] at hfirst
    cases hl : lookupA st.files (cacheKey family weight) with
    | some bytes =>
      rw [hl] at hfirst
      dsimp only [] at hfirst
      simp only [DLOutcome.mk.injEq, Except.ok.injEq] at hfirst
      obtain ⟨hp, hst, -, -⟩ := hfirst
      subst hst
      simp only [download_font]
      rw [hl, hp]
    | none =>
      rw [hl] at hfirst
      dsimp only [] at hfirst
      cases hcss : net.css ("https://fonts.googleapis.com/css2?family=" ++
          normalizeFamily family ++ ":wght@" ++ toString weight ++ "&display=swap") with
      | error e =>
        rw [hcss] at hfirst
        dsimp only [] at hfirst
        simp only [DLOutcome.mk.injEq] at hfirst
        exact absurd hfirst.1 (by simp)
      | ok cssText =>
        rw [hcss] at hfirst
        dsimp only [] at hfirst
        cases hsearch : searchFontUrl cssText.data with
        | none =>
          rw [hsearch] at hfirst
          dsimp only [] at hfirst
          simp only [DLOutcome.mk.injEq] at hfirst
          exact absurd hfirst.1 (by simp)
        | some fontUrl =>
          rw [hsearch] at hfirst
          dsimp only [] at hfirst
          cases hfile : net.file fontUrl with
          | error e2 =>
            rw [hfile] at hfirst
            dsimp only [] at hfirst
            simp only [DLOutcome.mk.injEq] at hfirst
            exact absurd hfirst.1 (by simp)
          | ok bytes =>
            rw [hfile] at hfirst
            dsimp only [] at hfirst
            simp only [DLOutcome.mk.injEq, Except.ok.injEq] at hfirst
            obtain ⟨hp, hst, -, -⟩ := hfirst
            subst hst
            simp only [download_font]
            rw [lookupA_append_none hl]
            simp [lookupA, hp]

/-- Witness for C4: a cache hit on a pre-populated directory, and a
download followed by a cache hit returning the same path. -/
theorem C4_witness :
    download_font netD stC "Rubik" 700 =
      ⟨.ok (cachePath (cacheKey "Rubik" 700)), stC, 0, false⟩ ∧
    download_font netD stD "Rubik" 700 =
      ⟨.ok "fonts_cache/Rubik-700.ttf", stD, 0, false⟩ :=
  ⟨(C4_cache_behaviour netD stC "Rubik" 700).2.1 [1] rfl,
   (C4_cache_behaviour netD ⟨[]⟩ "Rubik" 700).2.2 "fonts_cache/Rubik-700.ttf"
     stD 2 true netD (by rfl)⟩

theorem takeWhile_append_stop {α : Type} {p : α → Bool} {c : α} (hc : p c = false)
    (l r : List α) : (l ++ c :: r).takeWhile p = l.takeWhile p := by
  induction l with
  | nil => simp [List.takeWhile_cons, hc]
  | cons a as ih =>
    by_cases h : p a
    · simp [List.takeWhile_cons, h, ih]
    · simp [List.takeWhile_cons, h]

theorem beforeFirst_comma_append (l r : List Char) :
    beforeFirst ',' (l ++ ',' :: r) = beforeFirst ',' l :=
  takeWhile_append_stop (by simp) l r

theorem beforeFirst_stage (l r : List Char) :
    beforeFirst '-' (beforeFirst ',' (l ++ '-' :: r)) =
      beforeFirst '-' (beforeFirst ',' l) := by
  induction l with
  | nil => simp [beforeFirst, List.takeWhile_cons]
  | cons a as ih =>
    by_cases h1 : a = ','
    · subst h1; simp [beforeFirst, List.takeWhile_cons]
    · by_cases h2 : a = '-'
      · subst h2; simp [beforeFirst, List.takeWhile_cons]
      · have hb1 : (a != ',') = true := by simpa using h1
        have hb2 : (a != '-') = true := by simpa using h2
        simp only [beforeFirst, List.cons_append, List.takeWhile_cons, hb1, hb2,
          if_true] at ih ⊢
        simpa [beforeFirst] using ih

/-- C5: the family derived from fontName is the text before the first
comma, then the text before the first hyphen, then stripped of
surrounding whitespace; in particular appending a comma or a hyphen
followed by anything changes nothing, and the three concrete instances
of the claim hold. -/
theorem C5_family_derivation :
    parseFamily "Rubik-Bold, Georgia, serif" = "Rubik" ∧
    parseFamily "Arial" = "Arial" ∧
    parseFamily "" = "" ∧
    (∀ s : String, parseFamily s =
      String.mk (pyStrip (beforeFirst '-' (beforeFirst ',' s.data)))) ∧
    (∀ a b : String, parseFamily (String.mk (a.data ++ ',' :: b.data)) = parseFamily a) ∧
    (∀ a b : String, parseFamily (String.mk (a.data ++ '-' :: b.data)) = parseFamily a) := by
  refine ⟨by decide, by decide, by decide, fun s => rfl, ?_, ?_⟩
  · intro a b
    unfold parseFamily
    rw [show (String.mk (a.data ++ ',' :: b.data)).data = a.data ++ ',' :: b.data from rfl,
      beforeFirst_comma_append]
  · intro a b
    unfold parseFamily
    rw [show (String.mk (a.data ++ '-' :: b.data)).data = a.data ++ '-' :: b.data from rfl,
      beforeFirst_stage]

theorem digitChar10_isDigit (d : Nat) : (digitChar10 d).isDigit = true := by
  rcases d with _ | _ | _ | _ | _ | _ | _ | _ | _ | d <;> rfl

theorem digitChar10_not_pyspace (d : Nat) : isPySpace (digitChar10 d) = false := by
  rcases d with _ | _ | _ | _ | _ | _ | _ | _ | _ | d <;> rfl

theorem digitChar10_val {d : Nat} (hd : d < 10) : (digitChar10 d).toNat - 48 = d := by
  interval_cases d <;> rfl

theorem charsToNat_append_single (l : List Char) (c : Char) :
    charsToNat (l ++ [c]) = charsToNat l * 10 + (c.toNat - 48) := by
  simp [charsToNat, List.foldl_append]

theorem charsToNat_revmap (L : List Nat) (h : ∀ d ∈ L, d < 10) :
    charsToNat ((L.map digitChar10).reverse) = Nat.ofDigits 10 L := by
  induction L with
  | nil => simp [charsToNat, Nat.ofDigits_nil]
  | cons d rest ih =>
    simp only [List.map_cons, List.reverse_cons]
    rw [charsToNat_append_single, ih (fun x hx => h x (List.mem_cons_of_mem d hx)),
      digitChar10_val (h d (List.mem_cons_self d rest)), Nat.ofDigits_cons]
    ring

theorem charsToNat_digitsOf (n : Nat) : charsToNat (digitsOf n) = n := by
  unfold digitsOf
  by_cases h : n = 0
  · subst h; decide
  · rw [if_neg h, charsToNat_revmap _ (fun d hd => Nat.digits_lt_base (by norm_num) hd),
      Nat.ofDigits_digits]

theorem digitsOf_ne_nil (n : Nat) : digitsOf n ≠ [] := by
  unfold digitsOf
  by_cases h : n = 0
  · simp [h]
  · rw [if_neg h]
    simp [Nat.digits_ne_nil_iff_ne_zero.mpr h]

theorem digitsOf_all_digit {n : Nat} {c : Char} (hc : c ∈ digitsOf n) :
    c.isDigit = true := by
  unfold digitsOf at hc
  by_cases h : n = 0
  · rw [if_pos h] at hc
    simp only [List.mem_singleton] at hc
    subst hc; rfl
  · rw [if_neg h, List.mem_reverse] at hc
    obtain ⟨d, -, rfl⟩ := List.mem_map.mp hc
    exact digitChar10_isDigit d

theorem digitsOf_not_pyspace {n : Nat} {c : Char} (hc : c ∈ digitsOf n) :
    isPySpace c = false := by
  unfold digitsOf at hc
  by_cases h : n = 0
  · rw [if_pos h] at hc
    simp only [List.mem_singleton] at hc
    subst hc; rfl
  · rw [if_neg h, List.mem_reverse] at hc
    obtain ⟨d, -, rfl⟩ := List.mem_map.mp hc
    exact digitChar10_not_pyspace d

theorem takeWhile_all_append {α : Type} {p : α → Bool} {l : List α}
    (hall : ∀ x ∈ l, p x = true) {c : α} (hc : p c = false) (r : List α) :
    (l ++ c :: r).takeWhile p = l ∧ (l ++ c :: r).dropWhile p = c :: r := by
  induction l with
  | nil => simp [List.takeWhile_cons, List.dropWhile_cons, hc]
  | cons a as ih =>
    have ha : p a = true := hall a (List.mem_cons_self a as)
    have ihr := ih fun x hx => hall x (List.mem_cons_of_mem a hx)
    simp [List.takeWhile_cons, List.dropWhile_cons, ha, ihr.1, ihr.2]

theorem dropWhile_pyspace_digits (n : Nat) (r : List Char) :
    (digitsOf n ++ r).dropWhile isPySpace = digitsOf n ++ r := by
  cases hd : digitsOf n with
  | nil => exact absurd hd (digitsOf_ne_nil n)
  | cons c cs =>
    have hc : isPySpace c = false :=
      digitsOf_not_pyspace (hd ▸ List.mem_cons_self c cs)
    simp [List.dropWhile_cons, hc]

theorem scan_digits (n : Nat) (stop : Char) (hstop : Char.isDigit stop = false)
    (rest : List Char) :
    ((digitsOf n ++ stop :: rest).takeWhile Char.isDigit = digitsOf n) ∧
    ((digitsOf n ++ stop :: rest).dropWhile Char.isDigit = stop :: rest) :=
  takeWhile_all_append (fun _ hx => digitsOf_all_digit hx) hstop rest

theorem matchRGBAux_rgbData (r g b : Nat) (junk : List Char) :
    matchRGBAux (rgbData r g b ++ junk) = some ((r, g, b), junk) := by
  have h1 := scan_digits r ',' (by rfl)
    (' ' :: (digitsOf g ++ ',' :: ' ' :: (digitsOf b ++ ')' :: junk)))
  have h2 := scan_digits g ',' (by rfl) (' ' :: (digitsOf b ++ ')' :: junk))
  have h3 := scan_digits b ')' (by rfl) junk
  have hw1 := dropWhile_pyspace_digits g (',' :: ' ' :: (digitsOf b ++ ')' :: junk))
  have hw2 := dropWhile_pyspace_digits b (')' :: junk)
  have hsp : isPySpace ' ' = true := rfl
  unfold rgbData
  simp only [List.append_assoc, List.cons_append, List.nil_append]
  simp only [matchRGBAux, h1.1, h1.2, h2.1, h2.2, h3.1, h3.2, List.dropWhile_cons,
    hsp, if_true, hw1, hw2, charsToNat_digitsOf, digitsOf_ne_nil, if_false]

/-- C2 (amended): a string with a prefix of the form rgb(R,spaces G,
spaces B) with arbitrary non-negative decimal integers R, G, B parses to
(R/255, G/255, B/255) - trailing characters are ignored and channels
above 255 give components above 1.0 - and every string with no such
matching prefix parses to opaque black without error; the claim's
concrete instances hold, with 128/255 within 0.001 of 0.502. -/
theorem C2_amended :
    parse_color "rgb(0, 0, 0)" = (0, 0, 0) ∧
    parse_color "rgb(255, 128, 0)" = (1, 128 / 255, 0) ∧
    |(128 : ℚ) / 255 - 502 / 1000| < 1 / 1000 ∧
    (∀ (r g b : Nat) (junk : String),
      parse_color (String.mk (rgbData r g b ++ junk.data)) =
        ((r : ℚ) / 255, (g : ℚ) / 255, (b : ℚ) / 255)) ∧
    (∀ s : String, matchRGBAux s.data = none → parse_color s = (0, 0, 0)) := by
  refine ⟨?_, ?_, by rw [abs_sub_lt_iff]; constructor <;> norm_num, ?_, ?_⟩
  · have hm : matchRGBAux "rgb(0, 0, 0)".data = some ((0, 0, 0), []) := by decide
    unfold parse_color
    rw [hm]
    norm_num
  · have hm : matchRGBAux "rgb(255, 128, 0)".data = some ((255, 128, 0), []) := by
      decide
    unfold parse_color
    rw [hm]
    norm_num
  · intro r g b junk
    unfold parse_color
    rw [show (String.mk (rgbData r g b ++ junk.data)).data =
      rgbData r g b ++ junk.data from rfl]
    rw [matchRGBAux_rgbData]
  · intro s hm
    unfold parse_color
    rw [hm]

/-- C2 counterexample: the string rgb(255, 0, 0)x is not exactly of the
claimed form rgb(R, G, B) with channels 0-255, yet it does not parse to
black: re.match accepts the prefix and yields (1, 0, 0). -/
theorem C2_counterexample :
    ¬ isExactRGB255 "rgb(255, 0, 0)x" ∧
    parse_color "rgb(255, 0, 0)x" ≠ (0, 0, 0) := by
  constructor
  · rintro ⟨r, g, b, -, -, -, hs⟩
    have hd := congrArg String.data hs
    have h1 : ("rgb(255, 0, 0)x".data).getLast? = some 'x' := by decide
    have h2 : (rgbData r g b).getLast? = some ')' := List.getLast?_concat _
    rw [hd] at h1
    rw [h2] at h1
    exact absurd h1 (by decide)
  · have hm : matchRGBAux "rgb(255, 0, 0)x".data = some ((255, 0, 0), ['x']) := by
      decide
    unfold parse_color
    rw [hm]
    intro h
    rw [Prod.ext_iff] at h
    exact absurd (by norm_num : ((255 : ℚ) / 255) ≠ 0) (not_not.mpr h.1)

/-- Witness for C2 (amended): the universally quantified parts applied
at concrete inputs, including the fallback conjunct at a non-matching
string. -/
theorem C2_witness :
    parse_color (String.mk (rgbData 12 34 56 ++ "tail".data)) =
      ((12 : ℚ) / 255, (34 : ℚ) / 255, (56 : ℚ) / 255) ∧
    parse_color "hello" = (0, 0, 0) :=
  ⟨C2_amended.2.2.2.1 12 34 56 "tail",
   C2_amended.2.2.2.2 "hello" (by decide)⟩

theorem lookupA_append_single_ne {α : Type} {l : List (String × α)} {k name : String}
    (hne : k ≠ name) (v : α) : lookupA (l ++ [(k, v)]) name = lookupA l name := by
  cases hsn : lookupA l name with
  | some w => exact lookupA_append_some hsn _
  | none => rw [lookupA_append_none hsn]; simp [lookupA, hne]

theorem lookupA_isSome_congr {α β : Type} :
    ∀ {l1 : List (String × α)} {l2 : List (String × β)},
      l1.map Prod.fst = l2.map Prod.fst → ∀ k : String,
      (lookupA l1 k).isSome = (lookupA l2 k).isSome := by
  intro l1
  induction l1 with
  | nil =>
    intro l2 h k
    cases l2 with
    | nil => rfl
    | cons b bs => simp at h
  | cons a as ih =>
    intro l2 h k
    cases l2 with
    | nil => simp at h
    | cons b bs =>
      obtain ⟨a1, a2⟩ := a
      obtain ⟨b1, b2⟩ := b
      simp only [List.map_cons, List.cons.injEq] at h
      obtain ⟨hfst, hrest⟩ := h
      subst hfst
      simp only [lookupA]
      by_cases hk : a1 = k
      · rw [if_pos hk, if_pos hk]; rfl
      · rw [if_neg hk, if_neg hk]
        exact ih hrest k

theorem extractStep_other {ex : ExtractOracle} {p : Nat} {st : ExtractState}
    {f : FontRef} {name : String} (hne : f.name ≠ name) :
    lookupA (extractStep ex p st f).fonts name = lookupA st.fonts name ∧
    lookupA (extractStep ex p st f).metadata name = lookupA st.metadata name := by
  unfold extractStep
  cases hl : lookupA st.fonts f.name with
  | some v => exact ⟨rfl, rfl⟩
  | none =>
    cases hx : ex f.xref with
    | error e => exact ⟨rfl, rfl⟩
    | ok buf =>
      dsimp only []
      by_cases hb : buf.basename ≠ ""
      · rw [if_pos hb]
        by_cases hc : buf.content ≠ []
        · rw [if_pos hc]
          exact ⟨lookupA_append_single_ne hne _, lookupA_append_single_ne hne _⟩
        · rw [if_neg hc]; exact ⟨rfl, rfl⟩
      · rw [if_neg hb]; exact ⟨rfl, rfl⟩

theorem extractStep_mapFst {ex : ExtractOracle} {p : Nat} {st : ExtractState}
    {f : FontRef} (hsync : st.fonts.map Prod.fst = st.metadata.map Prod.fst) :
    (extractStep ex p st f).fonts.map Prod.fst =
      (extractStep ex p st f).metadata.map Prod.fst := by
  unfold extractStep
  cases hl : lookupA st.fonts f.name with
  | some v => exact hsync
  | none =>
    cases hx : ex f.xref with
    | error e => exact hsync
    | ok buf =>
      dsimp only []
      by_cases hb : buf.basename ≠ ""
      · rw [if_pos hb]
        by_cases hc : buf.content ≠ []
        · rw [if_pos hc]
          simp [List.map_append, hsync]
        · rw [if_neg hc]; exact hsync
      · rw [if_neg hb]; exact hsync

theorem extractStep_hit {ex : ExtractOracle} {p : Nat} {st : ExtractState}
    {f : FontRef} {v : String} (hl : lookupA st.fonts f.name = some v) :
    extractStep ex p st f = st := by
  unfold extractStep
  rw [hl]

theorem extractStep_bad {ex : ExtractOracle} {p : Nat} {st : ExtractState}
    {f : FontRef} (hl : lookupA st.fonts f.name = none)
    (hbad : goodOcc ex (p, f) = false) :
    extractStep ex p st f = st := by
  unfold extractStep
  unfold goodOcc at hbad
  rw [hl]
  cases hx : ex f.xref with
  | error e => rfl
  | ok buf =>
    rw [hx] at hbad
    dsimp only [] at hbad ⊢
    by_cases hb : buf.basename ≠ ""
    · rw [if_pos hb]
      by_cases hc : buf.content ≠ []
      · exfalso
        have hb2 : (buf.basename != "") = true := by simpa using hb
        have hc2 : (buf.content != []) = true := by simpa using hc
        rw [hb2, hc2] at hbad
        exact Bool.noConfusion hbad
      · rw [if_neg hc]
    · rw [if_neg hb]

theorem extractStep_good {ex : ExtractOracle} {p : Nat} {st : ExtractState}
    {f : FontRef} (hl : lookupA st.fonts f.name = none)
    {buf : ExtractBuf} (hx : ex f.xref = .ok buf) (hb : buf.basename ≠ "")
    (hc : buf.content ≠ []) :
    extractStep ex p st f =
      { fonts := st.fonts ++ [(f.name, String.mk (base64Encode buf.content))],
        metadata := st.metadata ++
          [(f.name, ⟨f.ftype, buf.ext, buf.content.length, [p]⟩)] } := by
  unfold extractStep
  rw [hl, hx]
  dsimp only []
  rw [if_pos hb, if_pos hc]

theorem firstGood_cons_skip {ex : ExtractOracle} {name : String}
    {pf : Nat × FontRef} {occs : List (Nat × FontRef)}
    (h : (pf.2.name == name && goodOcc ex pf) = false) :
    firstGood ex name (pf :: occs) = firstGood ex name occs := by
  unfold firstGood
  exact List.find?_cons_of_neg _ (by simp [h])

theorem firstGood_cons_take {ex : ExtractOracle} {name : String}
    {pf : Nat × FontRef} {occs : List (Nat × FontRef)}
    (h : (pf.2.name == name && goodOcc ex pf) = true) :
    firstGood ex name (pf :: occs) = some pf := by
  unfold firstGood
  exact List.find?_cons_of_pos _ h

theorem extractFold_lookup (ex : ExtractOracle) :
    ∀ (occs : List (Nat × FontRef)) (st : ExtractState),
      st.fonts.map Prod.fst = st.metadata.map Prod.fst →
      ((extractFold ex st occs).fonts.map Prod.fst =
        (extractFold ex st occs).metadata.map Prod.fst) ∧
      ∀ name : String,
        lookupA (extractFold ex st occs).metadata name =
          orLookup (lookupA st.metadata name)
            ((firstGood ex name occs).map (extractedMeta ex)) ∧
        lookupA (extractFold ex st occs).fonts name =
          orLookup (lookupA st.fonts name)
            ((firstGood ex name occs).map (extractedB64 ex)) := by
  intro occs
  induction occs with
  | nil =>
    intro st hsync
    refine ⟨hsync, fun name => ⟨?_, ?_⟩⟩
    · cases h : lookupA st.metadata name <;>
        simp [extractFold, firstGood, orLookup, h]
    · cases h : lookupA st.fonts name <;>
        simp [extractFold, firstGood, orLookup, h]
  | cons pf occs ih =>
    intro st hsync
    have hfold : extractFold ex st (pf :: occs) =
        extractFold ex (extractStep ex pf.1 st pf.2) occs := rfl
    obtain ⟨ihs, ihn⟩ := ih (extractStep ex pf.1 st pf.2) (extractStep_mapFst hsync)
    rw [hfold]
    refine ⟨ihs, fun name => ?_⟩
    obtain ⟨ihm, ihf⟩ := ihn name
    by_cases hne : pf.2.name = name
    · subst hne
      cases hl : lookupA st.fonts pf.2.name with
      | some w =>
        have hst : extractStep ex pf.1 st pf.2 = st := extractStep_hit hl
        have hsome : (lookupA st.metadata pf.2.name).isSome = true := by
          rw [← lookupA_isSome_congr hsync, hl]
          rfl
        obtain ⟨v, hv⟩ := Option.isSome_iff_exists.mp hsome
        rw [ihm, ihf, hst, hv, hl]
        exact ⟨rfl, rfl⟩
      | none =>
        have hlm : lookupA st.metadata pf.2.name = none := by
          have hiso := lookupA_isSome_congr hsync pf.2.name
          rw [hl] at hiso
          cases h2 : lookupA st.metadata pf.2.name with
          | none => rfl
          | some w => rw [h2] at hiso; exact absurd hiso (by simp)
        cases hgood : goodOcc ex pf with
        | false =>
          have hst : extractStep ex pf.1 st pf.2 = st := extractStep_bad hl hgood
          have hfg : firstGood ex pf.2.name (pf :: occs) = firstGood ex pf.2.name occs :=
            firstGood_cons_skip (by simp [hgood])
          rw [ihm, ihf, hst, hfg, hlm, hl]
          exact ⟨rfl, rfl⟩
        | true =>
          cases hx : ex pf.2.xref with
          | error e =>
            exfalso
            unfold goodOcc at hgood
            rw [hx] at hgood
            exact Bool.noConfusion hgood
          | ok buf =>
            have hgood2 := hgood
            unfold goodOcc at hgood2
            rw [hx] at hgood2
            dsimp only [] at hgood2
            simp only [Bool.and_eq_true, bne_iff_ne, ne_eq] at hgood2
            obtain ⟨hb, hc⟩ := hgood2
            have hst : extractStep ex pf.1 st pf.2 =
                { fonts := st.fonts ++
                    [(pf.2.name, String.mk (base64Encode buf.content))],
                  metadata := st.metadata ++
                    [(pf.2.name, ⟨pf.2.ftype, buf.ext, buf.content.length, [pf.1]⟩)] } :=
              extractStep_good hl hx hb hc
            have hfg : firstGood ex pf.2.name (pf :: occs) = some pf :=
              firstGood_cons_take (by simp [hgood])
            constructor
            · rw [ihm, hst]
              dsimp only []
              rw [lookupA_append_none hlm, hlm, hfg]
              simp [lookupA, orLookup, extractedMeta, hx]
            · rw [ihf, hst]
              dsimp only []
              rw [lookupA_append_none hl, hfg]
              simp [lookupA, orLookup, extractedB64, hx]
    · obtain ⟨hof, hom⟩ := extractStep_other hne
      have hfg : firstGood ex name (pf :: occs) = firstGood ex name occs :=
        firstGood_cons_skip (by simp [hne])
      rw [ihm, ihf, hom, hof, hfg]
      exact ⟨rfl, rfl⟩

theorem pages_fold_flat (ex : ExtractOracle) :
    ∀ (l : List (Nat × PDFPage)) (st : ExtractState),
      l.foldl (fun st pp => pp.2.fonts.foldl (extractStep ex (pp.1 + 1)) st) st =
      (l.flatMap fun pp => pp.2.fonts.map fun f => (pp.1 + 1, f)).foldl
        (fun st pf => extractStep ex pf.1 st pf.2) st := by
  intro l
  induction l with
  | nil => intro st; rfl
  | cons pp rest ih =>
    intro st
    simp only [List.foldl_cons, List.flatMap_cons, List.foldl_append]
    rw [ih, List.foldl_map]

theorem extract_fonts_eq_fold (ex : ExtractOracle) (doc : PDFDoc) :
    extract_fonts ex doc = extractFold ex ⟨[], []⟩ (occList doc) := by
  unfold extract_fonts occList extractFold
  exact pages_fold_flat ex doc.pages.enum ⟨[], []⟩

/-- C7 (amended): in font extraction, for every font name the result
records exactly the first occurrence of that name whose extraction
succeeded with a non-empty basename and non-empty bytes: the metadata
(with its single-element pages list naming that occurrence's 1-indexed
page) and the base64 bytes both come from it, and a name is absent from
both mappings exactly when it has no such occurrence; failing or empty
extractions are skipped without aborting, but they do not prevent a
later occurrence of the same name from being recorded. -/
theorem C7_amended (ex : ExtractOracle) (doc : PDFDoc) (name : String) :
    lookupA (extract_fonts ex doc).metadata name =
      (firstGood ex name (occList doc)).map (extractedMeta ex) ∧
    lookupA (extract_fonts ex doc).fonts name =
      (firstGood ex name (occList doc)).map (extractedB64 ex) := by
  have h := (extractFold_lookup ex (occList doc) ⟨[], []⟩ rfl).2 name
  rw [extract_fonts_eq_fold]
  exact ⟨h.1, h.2⟩

/-- C7 counterexample: in docC7 the name F0 is first seen on page 1,
but extraction fails there; the same name extracts successfully on page
2, so the result reports pages = [2] (not the first-seen page [1]) and
the name is not omitted even though one of its extractions failed. -/
theorem C7_counterexample :
    (docC7.pages.getD 0 {}).fonts.map FontRef.name = ["F0"] ∧
    exC7 1 = .error "extraction failed" ∧
    lookupA (extract_fonts exC7 docC7).metadata "F0" =
      some ⟨"Type0", "ttf", 3, [2]⟩ ∧
    ([2] : List Nat) ≠ [1] :=
  ⟨rfl, rfl, by decide, by decide⟩
